import Mathlib

/-!
Shallow embedding of the "Reader" repository: a progressive, prioritized
page-loading engine for paginated image collections.

Machine integers (`usize`) are modelled as `Nat`; the source never relies on
overflow.  Fallible Rust calls are modelled with `RResult`, which separates a
recoverable error (`Result::Err` / `anyhow` error) from a panic, because both
appear in the code.  File paths and file names are modelled as `String`;
byte buffers as `List Nat`.  Filesystem and decompression I/O is modelled by
explicit oracle functions passed as parameters, fixed for the duration of a
run (the model has no mutable filesystem).
-/

/-- Byte buffer (`Vec<u8>`). -/
abbrev Bytes := List Nat

/-- Outcome of a fallible Rust computation: success, a recoverable error
carrying its message, or a panic carrying its message. -/
inductive RResult (α : Type) where
  | ok : α → RResult α
  | err : String → RResult α
  | panic : String → RResult α
deriving Repr, DecidableEq

/-- True exactly on `RResult.ok`. -/
def RResult.isOk {α : Type} : RResult α → Bool
  | .ok _ => true
  | _ => false

/-- From `src/gap_vec.rs`: a fixed-size vector with gaps, i.e. a
`Vec<Option<T>>` of fixed length. -/
structure GapVec (α : Type) where
  items : List (Option α)
deriving Repr, DecidableEq

namespace GapVec

/-- From `src/gap_vec.rs` (`GapVec::new`): `size` empty slots. -/
def new (α : Type) (size : Nat) : GapVec α :=
  { items := (List.range size).map (fun _ => none) }

/-- Number of slots of the gap vec (`self.items.len()`). -/
def size {α : Type} (v : GapVec α) : Nat := v.items.length

/-- From `src/gap_vec.rs` (`GapVec::get`):
`self.items.get(index).expect("invalid index provided").as_ref()`.
An out-of-range index panics; otherwise the slot (possibly empty) is
returned. -/
def get {α : Type} (v : GapVec α) (index : Nat) : RResult (Option α) :=
  match v.items[index]? with
  | some slot => RResult.ok slot
  | none => RResult.panic ("invalid index provided")

/-- From `src/gap_vec.rs` (`GapVec::set`): `self.items[index] = Some(value)`.
Indexing a `Vec` out of range panics; otherwise the slot is overwritten. -/
def set {α : Type} (v : GapVec α) (index : Nat) (value : α) : RResult (GapVec α) :=
  if index < v.items.length then RResult.ok { items := v.items.set index (some value) }
  else RResult.panic ("index out of bounds")

theorem size_new (α : Type) (n : Nat) : (new α n).size = n := by
  simp [new, size]

theorem get_new (α : Type) (n i : Nat) (h : i < n) :
    (new α n).get i = RResult.ok none := by
  have hlen : ((List.range n).map (fun _ => (none : Option α))).length = n := by simp
  have hi : i < ((List.range n).map (fun _ => (none : Option α))).length := by
    simpa [hlen] using h
  have hslot : ((List.range n).map (fun _ => (none : Option α)))[i]? = some none := by
    rw [List.getElem?_eq_getElem hi]
    simp
  simp only [new, get]
  rw [hslot]

end GapVec

/-- CLAIM C8: for every `GapVec` of size `N` and every index, `get` fails
(with the out-of-range panic `"invalid index provided"`) when `index >= N`
and otherwise returns `none` on a never-set slot of a fresh vec and the
stored value after a `set`; `set` fails (index-out-of-bounds panic) when
`index >= N` and otherwise writes the slot so that a subsequent `get` at that
index returns the value, surviving later `set`s at other indices. -/
theorem gapVec_get_set_spec (α : Type) (n i : Nat) (v : GapVec α) (x : α) :
    (GapVec.size v ≤ i →
      v.get i = RResult.panic ("invalid index provided") ∧
      v.set i x = RResult.panic ("index out of bounds")) ∧
    (i < n → (GapVec.new α n).get i = RResult.ok none) ∧
    (i < GapVec.size v →
      ∃ v', v.set i x = RResult.ok v' ∧
        v'.get i = RResult.ok (some x) ∧
        ∀ j y v'', j ≠ i → v'.set j y = RResult.ok v'' →
          v''.get i = RResult.ok (some x)) := by
  have hsz : GapVec.size v = v.items.length := rfl
  refine ⟨?_, fun h => GapVec.get_new α n i h, ?_⟩
  · intro h
    constructor
    · have hnone : v.items[i]? = none := by
        rw [List.getElem?_eq_none]
        omega
      simp only [GapVec.get]
      rw [hnone]
    · simp only [GapVec.set]
      rw [if_neg]
      omega
  · intro h
    rw [hsz] at h
    refine ⟨{ items := v.items.set i (some x) }, ?_, ?_, ?_⟩
    · simp only [GapVec.set]
      rw [if_pos h]
    · have hslot : (v.items.set i (some x))[i]? = some (some x) := by
        simp [List.getElem?_set, h]
      simp only [GapVec.get]
      rw [hslot]
    · intro j y v'' hji hset
      simp only [GapVec.set] at hset
      split at hset
      · cases hset
        have hslot : ((v.items.set i (some x)).set j (some y))[i]? = some (some x) := by
          rw [List.getElem?_set, if_neg hji]
          simp [List.getElem?_set, h]
        simp only [GapVec.get]
        rw [hslot]
      · cases hset

/-- Witness for C8 at a concrete input: a fresh 2-slot vec, index 0. -/
theorem gapVec_get_set_spec_witness :
    ∃ v', (GapVec.new Nat 2).set 0 7 = RResult.ok v' ∧
      v'.get 0 = RResult.ok (some 7) ∧
      ∀ j y v'', j ≠ 0 → v'.set j y = RResult.ok v'' →
        v''.get 0 = RResult.ok (some 7) :=
  (gapVec_get_set_spec Nat 2 0 (GapVec.new Nat 2) 7).2.2 (by decide)

/-! ## Worker scheduling (`src/ui/app.rs`, `ReaderApp::create`, lines 106-157)

Each loading thread `thread_num` out of `threads_count` owns the residue
class `{ i < total_pages : i % threads_count == thread_num }`, kept in a
mutable `Vec` in ascending order.  Per iteration it reads the shared
priority cursor, picks the first remaining page `>= cursor` (or the one at
position 0 when none qualifies), removes it, loads it, stores the result,
requests a repaint, and only then checks the stop signal.  The cursor and
stop-signal reads are modelled as functions of the iteration number. -/

/-- From `src/ui/app.rs` line 122: the pages a worker thread owns,
`(0..total_pages).filter(|i| i % threads_count == thread_num)`. -/
def threadPages (total_pages threads_count thread_num : Nat) : List Nat :=
  (List.range total_pages).filter (fun i => i % threads_count == thread_num)

/-- Model of `Iterator::position`: index of the first element satisfying the
predicate, if any. -/
def position? (p : Nat → Bool) : List Nat → Option Nat
  | [] => none
  | x :: xs => if p x then some 0 else (position? p xs).map (fun k => k + 1)

/-- From `src/ui/app.rs` line 133:
`pages_to_load.iter().position(|i| *i >= prioritize_loading_from).unwrap_or(0)`. -/
def pickPos (pages_to_load : List Nat) (prioritize_loading_from : Nat) : Nat :=
  (position? (fun i => decide (prioritize_loading_from ≤ i)) pages_to_load).getD 0

/-- One pick (`src/ui/app.rs` lines 130-136): the page removed and returned by
`pages_to_load.remove(page_index_in_vec)`, together with the remaining list. -/
def workerStep (pages_to_load : List Nat) (prioritize_loading_from : Nat) :
    Nat × List Nat :=
  let k := pickPos pages_to_load prioritize_loading_from
  (pages_to_load.getD k 0, pages_to_load.eraseIdx k)

theorem position?_none_forall (p : Nat → Bool) (l : List Nat)
    (h : position? p l = none) : ∀ x ∈ l, p x = false := by
  induction l with
  | nil => intro x hx; cases hx
  | cons a as ih =>
    intro x hx
    simp only [position?] at h
    by_cases hpa : p a = true
    · rw [if_pos hpa] at h; cases h
    · rw [if_neg hpa] at h
      rw [List.mem_cons] at hx
      rcases hx with hx | hx
      · rw [hx]; simpa using hpa
      · have : position? p as = none := by
          cases hpos : position? p as
          · rfl
          · rw [hpos] at h; simp at h
        exact ih this x hx

theorem position?_some_lt (p : Nat → Bool) (l : List Nat) (k : Nat)
    (h : position? p l = some k) : k < l.length := by
  induction l generalizing k with
  | nil => cases h
  | cons a as ih =>
    simp only [position?] at h
    by_cases hpa : p a = true
    · rw [if_pos hpa] at h
      cases h
      simp only [List.length_cons]
      omega
    · rw [if_neg hpa] at h
      cases hpos : position? p as with
      | none => rw [hpos] at h; cases h
      | some k' =>
        rw [hpos] at h
        rw [Option.map_some'] at h
        cases h
        have := ih k' hpos
        simp only [List.length_cons]
        omega

theorem pickPos_lt_length (q : List Nat) (p : Nat) (h : q ≠ []) :
    pickPos q p < q.length := by
  unfold pickPos
  cases hpos : position? (fun i => decide (p ≤ i)) q with
  | none =>
    simp only [Option.getD_none]
    cases q
    · exact absurd rfl h
    · simp
  | some k =>
    simp only [Option.getD_some]
    exact position?_some_lt _ _ _ hpos

theorem workerStep_length_lt (q : List Nat) (p : Nat) (h : q ≠ []) :
    (workerStep q p).2.length < q.length := by
  have hk := pickPos_lt_length q p h
  simp only [workerStep, List.length_eraseIdx]
  rw [if_pos hk]
  omega

/-- Event emitted by a worker thread, in program order
(`src/ui/app.rs` lines 125-155): a page is picked and removed from the
remaining set, its load result is written into the result table, a repaint
is requested, and only then the stop signal is consulted. -/
inductive WorkerEvent where
  | picked : Nat → WorkerEvent
  | wrote : Nat → WorkerEvent
  | repaint : WorkerEvent
  | stopped : WorkerEvent
deriving Repr, DecidableEq

/-- The full event trace of one worker's loop (`src/ui/app.rs` lines 125-155),
given the sequence of priority-cursor values and stop-signal values it
observes at each iteration. -/
def workerTrace (cursor : Nat → Nat) (stop : Nat → Bool)
    (pages_to_load : List Nat) (n : Nat) : List WorkerEvent :=
  if h : pages_to_load = [] then []
  else
    WorkerEvent.picked (workerStep pages_to_load (cursor n)).1 ::
    WorkerEvent.wrote (workerStep pages_to_load (cursor n)).1 ::
    WorkerEvent.repaint ::
      (if stop n then [WorkerEvent.stopped]
       else workerTrace cursor stop (workerStep pages_to_load (cursor n)).2 (n + 1))
termination_by pages_to_load.length
decreasing_by exact workerStep_length_lt _ _ h

/-- The remaining set of a worker before iteration `n`, starting from the
initial list `q`, under cursor sequence `cursor` (stop signal ignored: the
state is the one reached if the worker is still running). -/
def workerRemaining (cursor : Nat → Nat) (q : List Nat) : Nat → List Nat
  | 0 => q
  | n + 1 =>
    let r := workerRemaining cursor q n
    if r = [] then [] else (workerStep r (cursor n)).2

theorem position?_some_exists (p : Nat → Bool) (l : List Nat) (k : Nat)
    (h : position? p l = some k) : ∃ x ∈ l, p x = true := by
  induction l generalizing k with
  | nil => cases h
  | cons a as ih =>
    simp only [position?] at h
    by_cases hpa : p a = true
    · exact ⟨a, List.mem_cons_self a as, hpa⟩
    · rw [if_neg hpa] at h
      cases hpos : position? p as with
      | none => rw [hpos] at h; cases h
      | some k' =>
        obtain ⟨x, hx, hpx⟩ := ih k' hpos
        exact ⟨x, List.mem_cons_of_mem a hx, hpx⟩

/-- On a strictly ascending remaining list, the picked page is the least
remaining page `>= p` when one exists, and the least remaining page
otherwise. -/
theorem workerStep_min (q : List Nat) (p : Nat) (hs : q.Pairwise (· < ·))
    (hne : q ≠ []) :
    (workerStep q p).1 ∈ q ∧
    (q.filter (fun x => decide (p ≤ x)) = [] →
      ∀ x ∈ q, (workerStep q p).1 ≤ x) ∧
    (q.filter (fun x => decide (p ≤ x)) ≠ [] →
      p ≤ (workerStep q p).1 ∧
      ∀ x ∈ q, p ≤ x → (workerStep q p).1 ≤ x) := by
  induction q with
  | nil => exact absurd rfl hne
  | cons a as ih =>
    rw [List.pairwise_cons] at hs
    obtain ⟨hhead, htail⟩ := hs
    by_cases hpa : p ≤ a
    · have hpick : pickPos (a :: as) p = 0 := by
        simp [pickPos, position?, hpa]
      have hfst : (workerStep (a :: as) p).1 = a := by
        simp [workerStep, hpick]
      have hfil : (a :: as).filter (fun x => decide (p ≤ x)) =
          a :: as.filter (fun x => decide (p ≤ x)) :=
        List.filter_cons_of_pos (by simpa using hpa)
      refine ⟨by rw [hfst]; exact List.mem_cons_self a as, ?_, ?_⟩
      · intro hnil
        rw [hfil] at hnil
        cases hnil
      · intro _
        rw [hfst]
        refine ⟨hpa, ?_⟩
        intro x hx _
        rw [List.mem_cons] at hx
        rcases hx with hx | hx
        · omega
        · exact Nat.le_of_lt (hhead x hx)
    · have hpreda : ¬((fun i => decide (p ≤ i)) a = true) := by simpa using hpa
      have hpredaf : (fun i => decide (p ≤ i)) a = false := by simpa using hpa
      cases hpos : position? (fun i => decide (p ≤ i)) as with
      | none =>
        have hpick : pickPos (a :: as) p = 0 := by
          simp [pickPos, position?, hpredaf, hpos]
        have hfst : (workerStep (a :: as) p).1 = a := by
          simp [workerStep, hpick]
        have hfilas : as.filter (fun x => decide (p ≤ x)) = [] := by
          rw [List.filter_eq_nil_iff]
          intro x hx
          simp only [Bool.not_eq_true]
          exact position?_none_forall _ _ hpos x hx
        have hfil : (a :: as).filter (fun x => decide (p ≤ x)) = [] := by
          simp [List.filter_cons, hpredaf, hfilas]
        refine ⟨by rw [hfst]; exact List.mem_cons_self a as, ?_, ?_⟩
        · intro _
          intro x hx
          rw [hfst]
          rw [List.mem_cons] at hx
          rcases hx with hx | hx
          · omega
          · exact Nat.le_of_lt (hhead x hx)
        · intro hne'
          exact absurd hfil hne'
      | some k' =>
        have hask : as ≠ [] := by
          intro hnil
          rw [hnil] at hpos
          cases hpos
        have hpick : pickPos (a :: as) p = k' + 1 := by
          simp [pickPos, position?, hpredaf, hpos]
        have hpickas : pickPos as p = k' := by
          simp [pickPos, hpos]
        have hfst : (workerStep (a :: as) p).1 = (workerStep as p).1 := by
          simp [workerStep, hpick, hpickas, List.getD]
        have hfil : (a :: as).filter (fun x => decide (p ≤ x)) =
            as.filter (fun x => decide (p ≤ x)) := by
          simp [List.filter_cons, hpredaf]
        obtain ⟨x₀, hx₀, hpx₀⟩ := position?_some_exists _ _ _ hpos
        have hfilas : as.filter (fun x => decide (p ≤ x)) ≠ [] := by
          intro hnil
          rw [List.filter_eq_nil_iff] at hnil
          exact hnil x₀ hx₀ hpx₀
        obtain ⟨ihmem, _, ihge⟩ := ih htail hask
        obtain ⟨ihp, ihmin⟩ := ihge hfilas
        refine ⟨by rw [hfst]; exact List.mem_cons_of_mem a ihmem, ?_, ?_⟩
        · intro hnil
          rw [hfil] at hnil
          exact absurd hnil hfilas
        · intro _
          rw [hfst]
          refine ⟨ihp, ?_⟩
          intro x hx hpx
          rw [List.mem_cons] at hx
          rcases hx with hx | hx
          · rw [hx] at hpx
            exact absurd hpx hpa
          · exact ihmin x hx hpx

/-- The initial residue class of a worker is strictly ascending. -/
theorem threadPages_sorted (total_pages threads_count thread_num : Nat) :
    (threadPages total_pages threads_count thread_num).Pairwise (· < ·) :=
  List.Pairwise.sublist (List.filter_sublist _) (List.pairwise_lt_range total_pages)

/-- Removing the picked element keeps the remaining list strictly ascending. -/
theorem workerStep_sorted (q : List Nat) (p : Nat)
    (hs : q.Pairwise (· < ·)) : (workerStep q p).2.Pairwise (· < ·) :=
  List.Pairwise.sublist (List.eraseIdx_sublist _ _) hs

/-- Every state of a worker's remaining set is strictly ascending: the set is
initialized ascending and elements are only ever removed. -/
theorem workerRemaining_sorted (cursor : Nat → Nat) (q : List Nat)
    (hs : q.Pairwise (· < ·)) (n : Nat) :
    (workerRemaining cursor q n).Pairwise (· < ·) := by
  induction n with
  | zero => exact hs
  | succ n ih =>
    simp only [workerRemaining]
    split
    · exact List.Pairwise.nil
    · exact workerStep_sorted _ _ ih

/-- CLAIM C1: at every iteration `n` of a worker's loop (worker `thread_num`
of `threads_count`, over a document of `total_pages` pages), if the remaining
set is non-empty and the priority cursor read at the start of the iteration
is `cursor n`, then the picked page is a remaining page that is the smallest
remaining page `>= cursor n` when one exists, and the smallest (oldest)
remaining page otherwise. -/
theorem worker_pick_priority (total_pages threads_count thread_num : Nat)
    (cursor : Nat → Nat) (n : Nat)
    (hne : workerRemaining cursor (threadPages total_pages threads_count thread_num) n ≠ []) :
    (workerStep (workerRemaining cursor (threadPages total_pages threads_count thread_num) n)
        (cursor n)).1 ∈
      workerRemaining cursor (threadPages total_pages threads_count thread_num) n ∧
    ((workerRemaining cursor (threadPages total_pages threads_count thread_num) n).filter
        (fun x => decide (cursor n ≤ x)) = [] →
      ∀ x ∈ workerRemaining cursor (threadPages total_pages threads_count thread_num) n,
        (workerStep (workerRemaining cursor (threadPages total_pages threads_count thread_num) n)
          (cursor n)).1 ≤ x) ∧
    ((workerRemaining cursor (threadPages total_pages threads_count thread_num) n).filter
        (fun x => decide (cursor n ≤ x)) ≠ [] →
      cursor n ≤
        (workerStep (workerRemaining cursor (threadPages total_pages threads_count thread_num) n)
          (cursor n)).1 ∧
      ∀ x ∈ workerRemaining cursor (threadPages total_pages threads_count thread_num) n,
        cursor n ≤ x →
          (workerStep (workerRemaining cursor (threadPages total_pages threads_count thread_num) n)
            (cursor n)).1 ≤ x) :=
  workerStep_min _ _
    (workerRemaining_sorted cursor _ (threadPages_sorted total_pages threads_count thread_num) n)
    hne

/-- Witness for C1 at the spec's concrete scenario: 10 pages, 4 workers,
worker 2 owns `[2, 6]`; with the cursor at 6 the picked page is `>= 6` and
is the least remaining page `>= 6` (hence page 6 is loaded before page 2). -/
theorem worker_pick_priority_witness :
    6 ≤ (workerStep (workerRemaining (fun _ => 6) (threadPages 10 4 2) 0) 6).1 ∧
    ∀ x ∈ workerRemaining (fun _ => 6) (threadPages 10 4 2) 0,
      6 ≤ x →
        (workerStep (workerRemaining (fun _ => 6) (threadPages 10 4 2) 0) 6).1 ≤ x :=
  (worker_pick_priority 10 4 2 (fun _ => 6) 0 (by decide)).2.2 (by decide)

theorem mem_threadPages_iff (total_pages threads_count thread_num i : Nat) :
    i ∈ threadPages total_pages threads_count thread_num ↔
      i < total_pages ∧ i % threads_count = thread_num := by
  simp [threadPages, List.mem_filter, List.mem_range]

/-- CLAIM C2: for every page count and every worker count `T >= 1`, the
static partitions `{ i < total_pages : i % T == t }` are pairwise disjoint
and cover `[0, total_pages)` — page `i` belongs to worker `t` exactly when
`t = i % T`, and `i % T` is a valid worker number — and a worker whose
partition is empty terminates immediately with zero load iterations (its
event trace is empty for every cursor and stop schedule). -/
theorem static_partition_spec (total_pages threads_count : Nat)
    (hT : 0 < threads_count) :
    (∀ i, i < total_pages →
      i % threads_count < threads_count ∧
      ∀ t, (i ∈ threadPages total_pages threads_count t ↔ t = i % threads_count)) ∧
    (∀ t (cursor : Nat → Nat) (stop : Nat → Bool),
      threadPages total_pages threads_count t = [] →
      workerTrace cursor stop (threadPages total_pages threads_count t) 0 = []) := by
  constructor
  · intro i hi
    refine ⟨Nat.mod_lt i hT, ?_⟩
    intro t
    rw [mem_threadPages_iff]
    constructor
    · intro ⟨_, h⟩
      omega
    · intro h
      exact ⟨hi, h.symm⟩
  · intro t cursor stop hempty
    rw [hempty, workerTrace]
    simp

/-- Witness for C2: three pages and two workers; page 1 belongs to worker 1
exactly, and with two pages and three workers, worker 2 has an empty
partition and an empty trace. -/
theorem static_partition_spec_witness :
    (1 ∈ threadPages 3 2 1 ↔ 1 = 1 % 2) ∧
    workerTrace (fun _ => 0) (fun _ => false) (threadPages 2 3 2) 0 = [] :=
  ⟨((static_partition_spec 3 2 (by decide)).1 1 (by decide)).2 1,
   (static_partition_spec 2 3 (by decide)).2 2 (fun _ => 0) (fun _ => false) (by decide)⟩

/-- CLAIM C4: in every worker iteration the picked page's load result is
written into the result table and the repaint notification is issued before
the stop signal is consulted: in the event trace, every `picked page` is
immediately followed by `wrote page` and then `repaint`, and the worker can
only terminate on stop (`stopped` event) immediately after a `repaint` that
itself follows a `wrote` — never mid-load.  This holds for every cursor and
stop schedule, so a stop request set at any time never prevents the
in-flight page's result from being recorded. -/
theorem worker_write_repaint_before_stop (cursor : Nat → Nat) (stop : Nat → Bool)
    (q : List Nat) (n i : Nat) :
    (∀ page, (workerTrace cursor stop q n)[i]? = some (WorkerEvent.picked page) →
      (workerTrace cursor stop q n)[i + 1]? = some (WorkerEvent.wrote page) ∧
      (workerTrace cursor stop q n)[i + 2]? = some WorkerEvent.repaint) ∧
    ((workerTrace cursor stop q n)[i]? = some WorkerEvent.stopped →
      2 ≤ i ∧
      (workerTrace cursor stop q n)[i - 1]? = some WorkerEvent.repaint ∧
      ∃ page, (workerTrace cursor stop q n)[i - 2]? = some (WorkerEvent.wrote page)) := by
  have aux : ∀ (len : Nat) (q : List Nat), q.length ≤ len → ∀ (n i : Nat),
      (∀ page, (workerTrace cursor stop q n)[i]? = some (WorkerEvent.picked page) →
        (workerTrace cursor stop q n)[i + 1]? = some (WorkerEvent.wrote page) ∧
        (workerTrace cursor stop q n)[i + 2]? = some WorkerEvent.repaint) ∧
      ((workerTrace cursor stop q n)[i]? = some WorkerEvent.stopped →
        2 ≤ i ∧
        (workerTrace cursor stop q n)[i - 1]? = some WorkerEvent.repaint ∧
        ∃ page, (workerTrace cursor stop q n)[i - 2]? = some (WorkerEvent.wrote page)) := by
    intro len
    induction len with
    | zero =>
      intro q hlen n i
      have hq : q = [] := List.length_eq_zero.mp (Nat.le_zero.mp hlen)
      rw [hq, workerTrace]
      simp
    | succ len ih =>
      intro q hlen n i
      by_cases hq : q = []
      · rw [hq, workerTrace]
        simp
      · rw [workerTrace, dif_neg hq]
        by_cases hstop : stop n = true
        · rw [if_pos hstop]
          match i with
          | 0 => simp
          | 1 => simp
          | 2 => simp
          | 3 =>
            constructor
            · intro page hpage
              simp at hpage
            · intro _
              refine ⟨by omega, ?_, ?_⟩
              · simp
              · exact ⟨(workerStep q (cursor n)).1, by simp⟩
          | (m + 4) =>
            constructor
            · intro page hpage
              simp at hpage
            · intro habs
              simp at habs
        · rw [if_neg hstop]
          have hrest : (workerStep q (cursor n)).2.length ≤ len := by
            have := workerStep_length_lt q (cursor n) hq
            omega
          match i with
          | 0 =>
            constructor
            · intro page hpage
              simp at hpage
              rw [hpage]
              simp
            · intro habs
              simp at habs
          | 1 =>
            constructor
            · intro page hpage
              simp at hpage
            · intro habs
              simp at habs
          | 2 =>
            constructor
            · intro page hpage
              simp at hpage
            · intro habs
              simp at habs
          | (m + 3) =>
            have heq : ∀ (j : Nat),
                (WorkerEvent.picked (workerStep q (cursor n)).1 ::
                 WorkerEvent.wrote (workerStep q (cursor n)).1 ::
                 WorkerEvent.repaint ::
                 workerTrace cursor stop (workerStep q (cursor n)).2 (n + 1))[j + 3]? =
                (workerTrace cursor stop (workerStep q (cursor n)).2 (n + 1))[j]? := by
              intro j
              simp
            obtain ⟨ihpick, ihstop⟩ := ih (workerStep q (cursor n)).2 hrest (n + 1) m
            constructor
            · intro page hpage
              rw [heq m] at hpage
              obtain ⟨hw, hr⟩ := ihpick page hpage
              have h1 : m + 3 + 1 = (m + 1) + 3 := by omega
              have h2 : m + 3 + 2 = (m + 2) + 3 := by omega
              rw [h1, heq (m + 1), h2, heq (m + 2)]
              exact ⟨hw, hr⟩
            · intro hstopped
              rw [heq m] at hstopped
              obtain ⟨hm2, hr, page, hw⟩ := ihstop hstopped
              refine ⟨by omega, ?_, ⟨page, ?_⟩⟩
              · have h1 : m + 3 - 1 = (m - 1) + 3 := by omega
                rw [h1, heq (m - 1)]
                exact hr
              · have h2 : m + 3 - 2 = (m - 2) + 3 := by omega
                rw [h2, heq (m - 2)]
                exact hw
  exact aux q.length q (Nat.le_refl _) n i

/-- Witness for C4: a one-page worker whose stop signal is already set at its
first iteration still records the page (event 1 is the write) and stops only
after the repaint (event 3 is the stop, preceded by repaint at event 2). -/
theorem worker_write_repaint_before_stop_witness :
    (workerTrace (fun _ => 0) (fun _ => true) [5] 0)[0 + 1]? =
      some (WorkerEvent.wrote 5) ∧
    2 ≤ 3 ∧
    (workerTrace (fun _ => 0) (fun _ => true) [5] 0)[3 - 1]? =
      some WorkerEvent.repaint ∧
    ∃ page, (workerTrace (fun _ => 0) (fun _ => true) [5] 0)[3 - 2]? =
      some (WorkerEvent.wrote page) :=
  ⟨((worker_write_repaint_before_stop (fun _ => 0) (fun _ => true) [5] 0 0).1 5
      (by rw [workerTrace]; simp [workerStep, pickPos, position?])).1,
   (worker_write_repaint_before_stop (fun _ => 0) (fun _ => true) [5] 0 3).2
      (by rw [workerTrace]; simp [workerStep, pickPos, position?])⟩

/-! ## Load coordinator (`src/ui/app.rs`, `ReaderApp::create` lines 87-172 and
`ReaderApp::load_path` lines 175-198)

A pipeline generation is the state built by `create`: the page count, the
result table (`GapVec` of per-page results), the stop signal, the current
page, and the handles of the spawned loading threads.  `load_path` first
constructs the new image source (modelled by a `loadSource` oracle), and only
on success sets the stop signal, joins every thread (in `pop` order, i.e.
reversed; a join may fail, modelled by a `joinOk` oracle), then rebuilds the
state through `create`.  The externally visible actions are recorded as an
event list so their order is provable. -/

/-- Result stored per page, `type PageLoadingResult = Result<(PathBuf, Vec<u8>), String>`. -/
abbrev PageLoadingResult := Except String (String × Bytes)

/-- A source as the coordinator sees it: only its page count matters here. -/
structure SourceModel where
  total_pages : Nat
deriving Repr, DecidableEq

/-- One pipeline generation (the fields of `ReaderApp` owned by the loading
core). -/
structure Generation where
  total_pages : Nat
  loaded_pages : GapVec PageLoadingResult
  threads_stop_signal : Bool
  current_page : Nat
  thread_handles : List Nat
deriving Repr

/-- Externally visible coordination action of `load_path`. -/
inductive AppEvent where
  | set_stop : AppEvent
  | join_thread : Nat → AppEvent
  | installed : AppEvent
deriving Repr, DecidableEq

/-- From `ReaderApp::create` (lines 87-103): fresh result table sized to the
source's `total_pages`, stop signal `false`, current page `0`, one handle per
spawned thread. -/
def createApp (img_source : SourceModel) (threads_count : Nat) : Generation :=
  { total_pages := img_source.total_pages
    loaded_pages := GapVec.new PageLoadingResult img_source.total_pages
    threads_stop_signal := false
    current_page := 0
    thread_handles := List.range threads_count }

/-- The join loop of `load_path` (lines 183-185): handles are popped from the
end and joined one by one; a failed join aborts with an internal error.
Returns the events of the joins attempted and whether all succeeded. -/
def joinThreads (joinOk : Nat → Bool) : List Nat → List AppEvent × Bool
  | [] => ([], true)
  | h :: rest =>
    if joinOk h then
      ((joinThreads joinOk rest).1.cons (AppEvent.join_thread h), (joinThreads joinOk rest).2)
    else ([AppEvent.join_thread h], false)

/-- From `ReaderApp::load_path` (lines 175-198): construct the new source
first; on failure return the error at once (state untouched).  On success set
the stop signal, join every thread (pop order), and rebuild the state via
`create`.  Returns the event list, the resulting state, and the call's
result. -/
def load_path (loadSource : String → Except String SourceModel)
    (joinOk : Nat → Bool) (threads_count : Nat)
    (app : Generation) (path : String) :
    List AppEvent × Generation × Except String Unit :=
  match loadSource path with
  | .error e => ([], app, .error e)
  | .ok img_source =>
    match joinThreads joinOk app.thread_handles.reverse with
    | (joinEvents, true) =>
      (AppEvent.set_stop :: joinEvents ++ [AppEvent.installed],
       createApp img_source threads_count, .ok ())
    | (joinEvents, false) =>
      (AppEvent.set_stop :: joinEvents,
       { app with threads_stop_signal := true },
       .error ("Internal error: failed to join thread"))

theorem joinThreads_all_ok (joinOk : Nat → Bool) (l : List Nat)
    (h : ∀ x ∈ l, joinOk x = true) :
    joinThreads joinOk l = (l.map AppEvent.join_thread, true) := by
  induction l with
  | nil => rfl
  | cons a rest ih =>
    have ha : joinOk a = true := h a (List.mem_cons_self a rest)
    have hrest : ∀ x ∈ rest, joinOk x = true :=
      fun x hx => h x (List.mem_cons_of_mem a hx)
    simp only [joinThreads, ha, if_pos, ih hrest, List.map_cons, List.cons.injEq]

/-- CLAIM C3: `load_path` with a path whose source construction fails returns
that error before setting the stop signal or joining any thread (no
coordination event at all) and leaves the state — page count and every
stored page result — unchanged; with a path whose source construction
succeeds (and every join succeeding), it emits exactly `set_stop`, then one
join per worker thread (in pop order), then installs a fresh generation whose
page count is the new source's `total_pages`, whose stop signal is clear, and
whose result table has every slot empty. -/
theorem load_path_spec (loadSource : String → Except String SourceModel)
    (joinOk : Nat → Bool) (threads_count : Nat) (app : Generation)
    (path : String) :
    (∀ e, loadSource path = .error e →
      load_path loadSource joinOk threads_count app path = ([], app, .error e)) ∧
    (∀ img_source, loadSource path = .ok img_source →
      (∀ h ∈ app.thread_handles, joinOk h = true) →
      load_path loadSource joinOk threads_count app path =
        (AppEvent.set_stop ::
           app.thread_handles.reverse.map AppEvent.join_thread ++ [AppEvent.installed],
         createApp img_source threads_count, .ok ()) ∧
      (createApp img_source threads_count).total_pages = img_source.total_pages ∧
      (createApp img_source threads_count).threads_stop_signal = false ∧
      ∀ i, i < img_source.total_pages →
        (createApp img_source threads_count).loaded_pages.get i = RResult.ok none) := by
  constructor
  · intro e he
    simp only [load_path, he]
  · intro img_source hok hjoin
    have hjoinrev : ∀ x ∈ app.thread_handles.reverse, joinOk x = true := by
      intro x hx
      exact hjoin x (List.mem_reverse.mp hx)
    refine ⟨?_, rfl, rfl, ?_⟩
    · simp only [load_path, hok, joinThreads_all_ok joinOk _ hjoinrev]
    · intro i hi
      exact GapVec.get_new PageLoadingResult img_source.total_pages i hi

/-- Witness for C3 at concrete inputs: a source oracle failing on one path and
succeeding with a 3-page source on another, a 2-thread app. -/
theorem load_path_spec_witness :
    load_path (fun p => if p = ("bad") then .error ("Provided item is not supported")
        else .ok { total_pages := 3 })
      (fun _ => true) 2 (createApp { total_pages := 1 } 2) ("bad") =
      ([], createApp { total_pages := 1 } 2,
        .error ("Provided item is not supported")) ∧
    load_path (fun p => if p = ("bad") then .error ("Provided item is not supported")
        else .ok { total_pages := 3 })
      (fun _ => true) 2 (createApp { total_pages := 1 } 2) ("good") =
      (AppEvent.set_stop ::
        (createApp { total_pages := 1 } 2).thread_handles.reverse.map AppEvent.join_thread ++
          [AppEvent.installed],
       createApp { total_pages := 3 } 2, .ok ()) :=
  ⟨(load_path_spec (fun p => if p = ("bad") then .error ("Provided item is not supported")
        else .ok { total_pages := 3 }) (fun _ => true) 2
        (createApp { total_pages := 1 } 2) ("bad")).1
      ("Provided item is not supported") (by rw [if_pos rfl]),
   ((load_path_spec (fun p => if p = ("bad") then .error ("Provided item is not supported")
        else .ok { total_pages := 3 }) (fun _ => true) 2
        (createApp { total_pages := 1 } 2) ("good")).2
      { total_pages := 3 } (by rw [if_neg (by decide)]) (fun h _ => rfl)).1⟩

/-! ## Image sources (`src/img_sources/` and `src/sources/`)

The repository snapshot contains two generations of the source modules: the
legacy `src/img_sources/` tree and the newer `src/sources/` tree (the one
`src/ui/app.rs` imports).  Both are embedded where the claims cite them.
File names are modelled as `String`; `Path::extension` and
`to_ascii_lowercase` are reimplemented over the character list; `Vec::sort`
is modelled by a stable insertion sort over byte order of the name. -/

/-- Model of `u8::to_ascii_lowercase` on one character. -/
def asciiLowerChar (c : Char) : Char :=
  if 'A' ≤ c ∧ c ≤ 'Z' then Char.ofNat (c.toNat + 32) else c

/-- Model of `str::to_ascii_lowercase`. -/
def to_ascii_lowercase (s : String) : String :=
  { data := s.data.map asciiLowerChar }

/-- Model of `Path::extension`: taken on the last path component; `none` when
the component has no dot or is a lone leading-dot name, otherwise the part
after the last dot. -/
def extension (path : String) : Option String :=
  match (path.data.splitOn '/').getLastD [] |>.splitOn '.' with
  | [] => none
  | [_] => none
  | first :: rest =>
    if first.isEmpty && rest.length == 1 then none
    else some { data := rest.getLastD [] }

/-- Byte-order comparison of two names (`Ord` on `PathBuf` restricted to the
flat names appearing in this model). -/
def charsLe : List Char → List Char → Bool
  | [], _ => true
  | _ :: _, [] => false
  | a :: as, b :: bs =>
    if a.toNat < b.toNat then true
    else if b.toNat < a.toNat then false
    else charsLe as bs

/-- Name comparison used for sorting pages. -/
def pathLe (a b : String) : Bool := charsLe a.data b.data

/-- Stable insertion of one element into an already sorted list: the new
element goes after existing elements it does not strictly precede. -/
def insertLe {α : Type} (le : α → α → Bool) (x : α) : List α → List α
  | [] => [x]
  | y :: ys => if le y x then y :: insertLe le x ys else x :: y :: ys

/-- Model of `Vec::sort` (stable) by left-to-right insertion. -/
def sortLe {α : Type} (le : α → α → Bool) (l : List α) : List α :=
  l.foldl (fun acc x => insertLe le x acc) []

/-- From `src/img_sources/mod.rs`:
`static IMG_EXTENSIONS: &[&str] = &["png", "jpg", "jpeg"]`. -/
def IMG_EXTENSIONS : List String := [("png"), ("jpg"), ("jpeg")]

/-- One directory entry as `fs::read_dir` yields it. -/
structure DirEntry where
  path : String
  is_file : Bool
deriving Repr, DecidableEq

/-- One archive entry (`zip` crate): its path inside the archive, whether it
is a file, and its decompressed bytes. -/
structure ZEntry where
  name : String
  is_file : Bool
  data : Bytes
deriving Repr, DecidableEq

/-- Model of `Arc<RwLock<T>>`: a reference identity plus the guarded value.
`Clone` on the `Arc` keeps the same `ref_id` (the clone shares the handle);
opening a fresh handle yields a different `ref_id`. -/
structure ArcRwLock (α : Type) where
  ref_id : Nat
  value : α
deriving Repr, DecidableEq

namespace ImgSources

/-- From `src/img_sources/image_directory.rs`: the directory source holds the
sorted list of kept file paths. -/
structure ImageDirectory where
  image_files : List String
deriving Repr, DecidableEq

/-- From `ImageDirectory::load` (lines 24-57): keep entries that are files
whose extension matches the allow-list case-insensitively
(`ext.to_ascii_lowercase() == c.to_ascii_lowercase()`), then sort. -/
def ImageDirectory.load (items : List DirEntry) : ImageDirectory :=
  { image_files :=
      sortLe pathLe
        (items.filterMap (fun item =>
          if item.is_file = false then none
          else
            match extension item.path with
            | none => none
            | some ext =>
              if IMG_EXTENSIONS.any
                  (fun c => to_ascii_lowercase ext == to_ascii_lowercase c) then
                some item.path
              else none)) }

/-- From `ImageDirectory::total_pages`. -/
def ImageDirectory.total_pages (self : ImageDirectory) : Nat :=
  self.image_files.length

/-- From `ImageDirectory::load_page` (lines 63-66):
`self.image_files.get(page).context("Page not found")?` then `fs::read`. -/
def ImageDirectory.load_page (fsRead : String → Except String Bytes)
    (self : ImageDirectory) (page : Nat) : RResult Bytes :=
  match self.image_files[page]? with
  | none => RResult.err ("Page not found")
  | some page_path =>
    match fsRead page_path with
    | .ok bytes => RResult.ok bytes
    | .error e => RResult.err e

/-- From `ImageDirectory::quick_clone` (lines 68-74): `Box::new(self.clone())`,
a plain value copy. -/
def ImageDirectory.quick_clone (self : ImageDirectory) : ImageDirectory :=
  self

/-- From `src/img_sources/zip_file.rs`: the archive source holds the shared
archive handle and the sorted entry indexes of the kept pages. -/
structure ZipFile where
  archive : ArcRwLock (List ZEntry)
  page_file_indexes : List Nat
deriving Repr, DecidableEq

/-- From `ZipFile::load` (lines 38-74): keep file entries whose extension is
in the allow-list compared exactly (`*c == ext`, case-sensitive), sorted by
entry path; store the entry indexes. -/
def ZipFile.load (ref_id : Nat) (entries : List ZEntry) : ZipFile :=
  { archive := { ref_id := ref_id, value := entries }
    page_file_indexes :=
      (sortLe (fun a b => pathLe a.2 b.2)
        (entries.enum.filterMap (fun p =>
          match extension p.2.name with
          | none => none
          | some ext =>
            if p.2.is_file && IMG_EXTENSIONS.any (fun c => c == ext) then
              some (p.1, p.2.name)
            else none))).map (fun p => p.1) }

/-- From `ZipFile::total_pages`. -/
def ZipFile.total_pages (self : ZipFile) : Nat :=
  self.page_file_indexes.length

/-- From `ZipFile::load_page` (lines 80-92):
`archive.by_index(self.page_file_indexes[page])` — the `Vec` indexing
panics when `page` is out of range; a bad inner index is a recoverable
archive error; otherwise the entry's bytes are returned. -/
def ZipFile.load_page (self : ZipFile) (page : Nat) : RResult Bytes :=
  match self.page_file_indexes[page]? with
  | none => RResult.panic ("index out of bounds")
  | some idx =>
    match self.archive.value[idx]? with
    | none => RResult.err ("Failed to read file in archive")
    | some item => RResult.ok item.data

/-- From `ZipFile::quick_clone` (lines 94-100): `Box::new(self.clone())` —
the derived `Clone` clones the `Arc`, so the duplicate holds the same
archive handle (same `ref_id`), not a reopened one. -/
def ZipFile.quick_clone (self : ZipFile) : ZipFile :=
  { archive := self.archive, page_file_indexes := self.page_file_indexes }

/-- From `src/img_sources/empty.rs` (`EmptySource::total_pages`). -/
def EmptySource.total_pages : Nat := 0

/-- From `src/img_sources/empty.rs` (`EmptySource::load_page`): always an
error. -/
def EmptySource.load_page (_ : Nat) : RResult Bytes :=
  RResult.err ("Cannot load any page from an empty source")

end ImgSources

namespace Sources

/-- From `src/sources/zip_file.rs`: the newer archive source owns its path,
its archive handle, and the kept entry indexes. -/
structure ZipFile where
  path : String
  archive : List ZEntry
  page_file_indexes : List Nat
deriving Repr, DecidableEq

/-- From `src/sources/zip_file.rs` (`ZipFile::total_pages`). -/
def ZipFile.total_pages (self : ZipFile) : Nat :=
  self.page_file_indexes.length

/-- From `src/sources/zip_file.rs` (`ZipFile::load_page`, lines 112-127):
same shape as the legacy one, but returns the entry name with the bytes. -/
def ZipFile.load_page (self : ZipFile) (page : Nat) : RResult (String × Bytes) :=
  match self.page_file_indexes[page]? with
  | none => RResult.panic ("index out of bounds")
  | some idx =>
    match self.archive[idx]? with
    | none => RResult.err ("Failed to read file in archive")
    | some item => RResult.ok (item.name, item.data)

/-- From `src/sources/zip_file.rs` (`ZipFile::quick_clone`, lines 98-110):
reopen the container at the stored path (`File::open(&self.path)?`, modelled
by the `fsOpen` oracle), clone the entry indexes. -/
def ZipFile.quick_clone (fsOpen : String → Except String (List ZEntry))
    (self : ZipFile) : Except String ZipFile :=
  match fsOpen self.path with
  | .error e => .error e
  | .ok archive =>
    .ok { path := self.path, archive := archive
          page_file_indexes := self.page_file_indexes }

end Sources

/-- A concrete 10-page archive source (valid indices 0-9), as in the spec's
scenario. -/
def zipTenPages : ImgSources.ZipFile :=
  { archive :=
      { ref_id := 0
        value := (List.range 10).map
          (fun i => { name := ("p.png"), is_file := true, data := [i] }) }
    page_file_indexes := List.range 10 }

/-- Counterexample for C5: on the archive source, `load_page(10)` on a
10-page source does not return an index/not-found error — it panics
(`self.page_file_indexes[page]` is a panicking `Vec` index), contrary to the
claim that no source variant panics on an out-of-range index. -/
theorem zip_load_page_out_of_range_panics :
    ImgSources.ZipFile.total_pages zipTenPages = 10 ∧
    ImgSources.ZipFile.load_page zipTenPages 10 =
      RResult.panic ("index out of bounds") ∧
    ∀ e, ImgSources.ZipFile.load_page zipTenPages 10 ≠ RResult.err e := by
  refine ⟨rfl, rfl, ?_⟩
  intro e h
  cases h

/-- CLAIM C5 (amended): for every index `>= total_pages()`, the directory
source returns the "Page not found" error and the empty source returns its
load error — neither succeeds nor panics, touching no state — but the
archive source panics on the out-of-range `Vec` index instead of returning
an error. -/
theorem load_page_out_of_range_spec (fsRead : String → Except String Bytes)
    (d : ImgSources.ImageDirectory) (z : ImgSources.ZipFile) (page : Nat) :
    (d.total_pages ≤ page →
      ImgSources.ImageDirectory.load_page fsRead d page =
        RResult.err ("Page not found")) ∧
    ImgSources.EmptySource.load_page page =
      RResult.err ("Cannot load any page from an empty source") ∧
    (z.total_pages ≤ page →
      ImgSources.ZipFile.load_page z page =
        RResult.panic ("index out of bounds")) := by
  refine ⟨?_, rfl, ?_⟩
  · intro h
    have hnone : d.image_files[page]? = none := by
      rw [List.getElem?_eq_none]
      exact h
    simp only [ImgSources.ImageDirectory.load_page]
    rw [hnone]
  · intro h
    have hnone : z.page_file_indexes[page]? = none := by
      rw [List.getElem?_eq_none]
      exact h
    simp only [ImgSources.ZipFile.load_page]
    rw [hnone]

/-- Witness for C5 (amended) at concrete inputs: an empty directory source at
page 0 and the 10-page archive at page 10. -/
theorem load_page_out_of_range_spec_witness :
    ImgSources.ImageDirectory.load_page (fun _ => .ok [])
      (ImgSources.ImageDirectory.load []) 0 = RResult.err ("Page not found") ∧
    ImgSources.ZipFile.load_page zipTenPages 10 =
      RResult.panic ("index out of bounds") :=
  ⟨(load_page_out_of_range_spec (fun _ => .ok [])
      (ImgSources.ImageDirectory.load []) zipTenPages 0).1 (by decide),
   (load_page_out_of_range_spec (fun _ => .ok [])
      (ImgSources.ImageDirectory.load []) zipTenPages 10).2.2 (by decide)⟩

/-- Counterexample for C6: an archive entry whose extension differs from the
allow-list only in case (`x.PNG`) is NOT kept as a page — the archive filter
(`IMG_EXTENSIONS.iter().any(|c| *c == ext)`) is case-sensitive, so the
resulting source has 0 pages where the claim requires 1. -/
theorem zip_filter_case_counterexample :
    (ImgSources.ZipFile.load 0
      [{ name := ("x.PNG"), is_file := true, data := [] }]).total_pages = 0 ∧
    (ImgSources.ZipFile.load 0
      [{ name := ("x.PNG"), is_file := true, data := [] }]).total_pages ≠ 1 := by
  exact ⟨by decide, by decide⟩

/-- CLAIM C6 (amended): the directory source filters by the allow-list
case-insensitively and orders kept pages ascending — the directory
`b.png, a.jpg, c.PNG, notes.txt` yields 3 pages in order
`a.jpg, b.png, c.PNG` — while the archive source compares extensions
case-sensitively: an exact-case `.png` entry is kept but a `.PNG` entry is
dropped. -/
theorem source_filter_and_order_spec :
    (ImgSources.ImageDirectory.load
        [{ path := ("b.png"), is_file := true },
         { path := ("a.jpg"), is_file := true },
         { path := ("c.PNG"), is_file := true },
         { path := ("notes.txt"), is_file := true }]).image_files =
      [("a.jpg"), ("b.png"), ("c.PNG")] ∧
    (ImgSources.ImageDirectory.load
        [{ path := ("b.png"), is_file := true },
         { path := ("a.jpg"), is_file := true },
         { path := ("c.PNG"), is_file := true },
         { path := ("notes.txt"), is_file := true }]).total_pages = 3 ∧
    (ImgSources.ZipFile.load 0
      [{ name := ("x.png"), is_file := true, data := [] }]).total_pages = 1 ∧
    (ImgSources.ZipFile.load 0
      [{ name := ("x.PNG"), is_file := true, data := [] }]).total_pages = 0 := by
  exact ⟨by decide, by decide, by decide, by decide⟩

/-- A concrete one-page legacy archive source whose `Arc` handle has
reference identity 5. -/
def zipSharedHandle : ImgSources.ZipFile :=
  { archive := { ref_id := 5, value := [{ name := ("x.png"), is_file := true, data := [1] }] }
    page_file_indexes := [0] }

/-- Counterexample for C7: the legacy archive source's `quick_clone`
(`src/img_sources/zip_file.rs` lines 94-100) is `Box::new(self.clone())`,
which clones the `Arc` — the duplicate holds the very same archive handle
(same reference identity) as the original, not a freshly reopened one. -/
theorem legacy_zip_quick_clone_shares_handle :
    ImgSources.ZipFile.quick_clone zipSharedHandle = zipSharedHandle ∧
    (ImgSources.ZipFile.quick_clone zipSharedHandle).archive.ref_id =
      zipSharedHandle.archive.ref_id := by
  exact ⟨rfl, rfl⟩

/-- CLAIM C7 (amended): every duplicate has the same `total_pages`, the same
page ordering and the same `load_page` results as the original; the
directory duplicate is a plain value copy; the newer archive source
(`src/sources/zip_file.rs`) duplicates by freshly reopening the container at
its stored path (same content under an unchanged filesystem); the legacy
archive source (`src/img_sources/zip_file.rs`) instead shares the original's
handle behind the cloned `Arc`. -/
theorem quick_clone_spec (d : ImgSources.ImageDirectory)
    (z : ImgSources.ZipFile)
    (fsOpen : String → Except String (List ZEntry)) (z2 : Sources.ZipFile)
    (page : Nat) :
    ImgSources.ImageDirectory.quick_clone d = d ∧
    ((ImgSources.ZipFile.quick_clone z).total_pages = z.total_pages ∧
     ImgSources.ZipFile.load_page (ImgSources.ZipFile.quick_clone z) page =
       ImgSources.ZipFile.load_page z page ∧
     (ImgSources.ZipFile.quick_clone z).archive.ref_id = z.archive.ref_id) ∧
    (fsOpen z2.path = .ok z2.archive →
      ∃ clone, Sources.ZipFile.quick_clone fsOpen z2 = .ok clone ∧
        clone.total_pages = z2.total_pages ∧
        clone.page_file_indexes = z2.page_file_indexes ∧
        clone.path = z2.path ∧
        clone.archive = z2.archive ∧
        ∀ i, Sources.ZipFile.load_page clone i = Sources.ZipFile.load_page z2 i) := by
  refine ⟨rfl, ⟨rfl, rfl, rfl⟩, ?_⟩
  intro hopen
  refine ⟨{ path := z2.path, archive := z2.archive
            page_file_indexes := z2.page_file_indexes }, ?_, rfl, rfl, rfl, rfl, ?_⟩
  · simp only [Sources.ZipFile.quick_clone, hopen]
  · intro i
    rfl

/-- Witness for C7 (amended) at a concrete input: a one-page newer archive
source whose path reopens to its own content. -/
theorem quick_clone_spec_witness :
    ∃ clone,
      Sources.ZipFile.quick_clone
        (fun _ => .ok [{ name := ("x.png"), is_file := true, data := [1] }])
        { path := ("a.zip")
          archive := [{ name := ("x.png"), is_file := true, data := [1] }]
          page_file_indexes := [0] } = .ok clone ∧
      clone.total_pages =
        Sources.ZipFile.total_pages
          { path := ("a.zip")
            archive := [{ name := ("x.png"), is_file := true, data := [1] }]
            page_file_indexes := [0] } ∧
      clone.page_file_indexes = [0] ∧
      clone.path = ("a.zip") ∧
      clone.archive = [{ name := ("x.png"), is_file := true, data := [1] }] ∧
      ∀ i, Sources.ZipFile.load_page clone i =
        Sources.ZipFile.load_page
          { path := ("a.zip")
            archive := [{ name := ("x.png"), is_file := true, data := [1] }]
            page_file_indexes := [0] } i :=
  (quick_clone_spec (ImgSources.ImageDirectory.load []) zipSharedHandle
      (fun _ => .ok [{ name := ("x.png"), is_file := true, data := [1] }])
      { path := ("a.zip")
        archive := [{ name := ("x.png"), is_file := true, data := [1] }]
        page_file_indexes := [0] } 0).2.2 rfl

/-! ## Navigation (`src/ui/app.rs`: `relative_page_change` lines 242-270,
`handle_inputs` Home/End lines 274-286, jump-to-page prompt lines 427-442)

The cursor state is the current page and the fixed total page count; the
settings fields are those of `src/settings.rs`.  The jump prompt's parsed
input is modelled as `Option Nat` (`None` = `parse::<usize>()` failed, which
shows an error dialog and leaves the page unchanged). -/

/-- From `src/settings.rs`. -/
structure Settings where
  right_to_left : Bool
  double_page : Bool
  display_pages_number : Bool
  display_first_page_in_single_mode : Bool
deriving Repr, DecidableEq

/-- From `ReaderApp::relative_page_change` (lines 242-270): the new value of
`current_page`.  `inc` is `-1` or `+1` (asserted in the code), doubled in
double-page mode unless shift is held or we are on a first page displayed
single. -/
def relative_page_change (settings : Settings) (total_pages current_page : Nat)
    (inc : Int) (shift : Bool) : Nat :=
  let inc :=
    if settings.double_page && !shift &&
        (current_page != 0 || !settings.display_first_page_in_single_mode) then
      inc * 2
    else inc
  if inc < 0 then
    let dec := (-inc).toNat
    if current_page ≤ dec then 0 else current_page - dec
  else
    let c_page := current_page + inc.toNat
    let max_page := if total_pages = 0 then 0 else total_pages - 1
    min c_page max_page

/-- From `handle_inputs` (line 275): Home stores 0. -/
def home_key_page : Nat := 0

/-- From `handle_inputs` (lines 278-285): End stores 0 for at most one page,
`total_pages - 2` in double-page mode, `total_pages - 1` otherwise. -/
def end_key_page (settings : Settings) (total_pages : Nat) : Nat :=
  if total_pages ≤ 1 then 0
  else if settings.double_page then total_pages - 2
  else total_pages - 1

/-- From the jump-to-page prompt (lines 427-442): a failed parse or a page
number of 0 or `> total_pages` shows an error and leaves the current page;
otherwise `page - 1` is stored. -/
def jump_prompt_page (total_pages current_page : Nat)
    (parsed : Option Nat) : Nat :=
  match parsed with
  | none => current_page
  | some page =>
    if page = 0 then current_page
    else if total_pages < page then current_page
    else page - 1

/-- A navigation operation of the UI. -/
inductive NavOp where
  | relative : Int → Bool → NavOp
  | home : NavOp
  | end_key : NavOp
  | jump : Option Nat → NavOp
deriving Repr, DecidableEq

/-- Dispatch of one navigation operation to the new `current_page`. -/
def applyNav (settings : Settings) (total_pages current_page : Nat) :
    NavOp → Nat
  | NavOp.relative inc shift =>
      relative_page_change settings total_pages current_page inc shift
  | NavOp.home => home_key_page
  | NavOp.end_key => end_key_page settings total_pages
  | NavOp.jump parsed => jump_prompt_page total_pages current_page parsed

theorem relative_page_change_bound (settings : Settings)
    (total_pages current_page : Nat) (inc : Int) (shift : Bool)
    (hcur : current_page ≤ total_pages - 1) :
    relative_page_change settings total_pages current_page inc shift ≤
      total_pages - 1 ∧
    (total_pages = 0 →
      relative_page_change settings total_pages current_page inc shift = 0) := by
  simp only [relative_page_change]
  constructor
  · repeat' split
    all_goals omega
  · intro h0
    rw [h0] at hcur
    repeat' split
    all_goals omega

/-- CLAIM C9: every navigation operation preserves the cursor invariant
`current_page <= max(total_pages - 1, 0)` (which is `total_pages - 1` in
truncated subtraction): relative changes saturate at 0 backward and clamp to
`total_pages - 1` forward (also with the doubled double-page step), Home and
End store in-range values, the jump prompt only accepts `1..=total_pages`
and stores `page - 1`, and when `total_pages = 0` the cursor stays 0.  The
code asserts `inc` is `-1` or `+1` for relative changes, reflected as a
hypothesis. -/
theorem nav_preserves_cursor_bound (settings : Settings)
    (total_pages current_page : Nat) (op : NavOp)
    (hcur : current_page ≤ total_pages - 1)
    (hop : ∀ inc shift, op = NavOp.relative inc shift → inc = -1 ∨ inc = 1) :
    applyNav settings total_pages current_page op ≤ total_pages - 1 ∧
    (total_pages = 0 → applyNav settings total_pages current_page op = 0) := by
  cases op with
  | relative inc shift =>
    have _ := hop inc shift rfl
    simpa only [applyNav] using
      relative_page_change_bound settings total_pages current_page inc shift hcur
  | home =>
    refine ⟨?_, fun _ => ?_⟩ <;> simp [applyNav, home_key_page]
  | end_key =>
    simp only [applyNav, end_key_page]
    constructor
    · repeat' split
      all_goals omega
    · intro h0
      rw [if_pos (by omega)]
  | jump parsed =>
    cases parsed with
    | none =>
      simp only [applyNav, jump_prompt_page]
      exact ⟨hcur, fun h0 => by omega⟩
    | some page =>
      simp only [applyNav, jump_prompt_page]
      constructor
      · repeat' split
        all_goals omega
      · intro h0
        rw [h0] at hcur
        repeat' split
        all_goals omega

/-- Witness for C9 at concrete inputs: a forward step from the last page of a
5-page document (default settings) stays at page 4. -/
theorem nav_preserves_cursor_bound_witness :
    applyNav
      { right_to_left := false, double_page := false
        display_pages_number := true, display_first_page_in_single_mode := true }
      5 4 (NavOp.relative 1 false) ≤ 5 - 1 ∧
    (5 = 0 → applyNav
      { right_to_left := false, double_page := false
        display_pages_number := true, display_first_page_in_single_mode := true }
      5 4 (NavOp.relative 1 false) = 0) :=
  nav_preserves_cursor_bound _ 5 4 (NavOp.relative 1 false) (by decide)
    (fun inc shift h => by cases h; exact Or.inr rfl)

/-! ## Decoders (`src/decoders/mod.rs`, `src/decoders/png.rs`,
`src/decoders/jpeg.rs`)

The underlying `zune` decoders are modelled as oracles returning the raw
pixel byte buffer together with the header width and height.  The repository
code then normalizes that buffer to RGB8: a buffer of exactly
`width*height*3` bytes is passed through, a buffer of exactly `width*height`
bytes (grayscale) is expanded by triplicating each byte, and any other
length is an error.  `decode_image` in `src/decoders/mod.rs` dispatches on
the file name and only wires the PNG decoder. -/

/-- A successfully decoded image. -/
structure DecodedImage where
  rgb8_pixels : Bytes
  width : Nat
  height : Nat
deriving Repr, DecidableEq

/-- From `PngDecoder::item_matches`: extension is `png` case-insensitively. -/
def PngDecoder.item_matches (path : String) : Bool :=
  match extension path with
  | none => false
  | some ext => to_ascii_lowercase ext == ("png")

/-- From `JpegDecoder::item_matches`: extension is `jpg` or `jpeg`
case-insensitively. -/
def JpegDecoder.item_matches (path : String) : Bool :=
  match extension path with
  | none => false
  | some ext =>
    to_ascii_lowercase ext == ("jpg") || to_ascii_lowercase ext == ("jpeg")

/-- From `PngDecoder::decode` (`src/decoders/png.rs` lines 45-58): the raw
decoder output (`zuneDecode` oracle: pixel bytes, width, height) is
normalized — passthrough at `width*height*3` bytes, grayscale triplication
at `width*height` bytes, error otherwise. -/
def PngDecoder.decode (zuneDecode : Bytes → Except String (Bytes × Nat × Nat))
    (bytes : Bytes) : Except String DecodedImage :=
  match zuneDecode bytes with
  | .error e => .error e
  | .ok (pixel_bytes, width, height) =>
    if pixel_bytes.length = width * height * 3 then
      .ok { rgb8_pixels := pixel_bytes, width := width, height := height }
    else if pixel_bytes.length = width * height then
      .ok { rgb8_pixels := pixel_bytes.flatMap (fun pixel => [pixel, pixel, pixel])
            width := width, height := height }
    else .error ("Got invalid number of bytes from PNG decoding")

/-- From `JpegDecoder::decode` (`src/decoders/jpeg.rs` lines 40-53): same
normalization as the PNG decoder. -/
def JpegDecoder.decode (zuneDecode : Bytes → Except String (Bytes × Nat × Nat))
    (bytes : Bytes) : Except String DecodedImage :=
  match zuneDecode bytes with
  | .error e => .error e
  | .ok (pixel_bytes, width, height) =>
    if pixel_bytes.length = width * height * 3 then
      .ok { rgb8_pixels := pixel_bytes, width := width, height := height }
    else if pixel_bytes.length = width * height then
      .ok { rgb8_pixels := pixel_bytes.flatMap (fun pixel => [pixel, pixel, pixel])
            width := width, height := height }
    else .error ("Got invalid number of bytes from JPEG decoding")

/-- From `decode_image` (`src/decoders/mod.rs` lines 32-38): dispatch on the
file name; only the PNG decoder is wired. -/
def decode_image (zuneDecode : Bytes → Except String (Bytes × Nat × Nat))
    (filename : String) (raw : Bytes) : Except String DecodedImage :=
  if PngDecoder.item_matches filename then PngDecoder.decode zuneDecode raw
  else .error ("Unsupported image type provided")

theorem length_flatMap_triple (l : Bytes) :
    (l.flatMap (fun pixel => [pixel, pixel, pixel])).length = l.length * 3 := by
  induction l with
  | nil => rfl
  | cons a as ih =>
    simp only [List.flatMap_cons, List.length_append, ih, List.length_cons,
      List.length_nil]
    omega

theorem png_decode_ok_length
    (zuneDecode : Bytes → Except String (Bytes × Nat × Nat)) (raw : Bytes)
    (img : DecodedImage) (h : PngDecoder.decode zuneDecode raw = .ok img) :
    img.rgb8_pixels.length = img.width * img.height * 3 := by
  unfold PngDecoder.decode at h
  split at h
  · cases h
  · split at h
    · rename_i h3
      cases h
      exact h3
    · split at h
      · rename_i h1
        cases h
        simp only [length_flatMap_triple, h1]
      · cases h

theorem jpeg_decode_ok_length
    (zuneDecode : Bytes → Except String (Bytes × Nat × Nat)) (raw : Bytes)
    (img : DecodedImage) (h : JpegDecoder.decode zuneDecode raw = .ok img) :
    img.rgb8_pixels.length = img.width * img.height * 3 := by
  unfold JpegDecoder.decode at h
  split at h
  · cases h
  · split at h
    · rename_i h3
      cases h
      exact h3
    · split at h
      · rename_i h1
        cases h
        simp only [length_flatMap_triple, h1]
      · cases h

/-- CLAIM C10: whenever `decode_image` succeeds, the decoded image satisfies
`rgb8_pixels.len() == width * height * 3`: raw decoder output of exactly
`width*height*3` bytes is passed through, output of exactly `width*height`
bytes is expanded by triplicating each byte, and any other output length is
rejected as an error.  The same holds for the JPEG decoder's normalization. -/
theorem decode_image_rgb8_length
    (zuneDecode : Bytes → Except String (Bytes × Nat × Nat))
    (filename : String) (raw : Bytes) (img img2 : DecodedImage)
    (pixel_bytes : Bytes) (width height : Nat) :
    (decode_image zuneDecode filename raw = .ok img →
      img.rgb8_pixels.length = img.width * img.height * 3) ∧
    (JpegDecoder.decode zuneDecode raw = .ok img2 →
      img2.rgb8_pixels.length = img2.width * img2.height * 3) ∧
    (zuneDecode raw = .ok (pixel_bytes, width, height) →
      pixel_bytes.length ≠ width * height * 3 →
      pixel_bytes.length ≠ width * height →
      PngDecoder.decode zuneDecode raw =
        .error ("Got invalid number of bytes from PNG decoding")) := by
  refine ⟨?_, ?_, ?_⟩
  · intro h
    unfold decode_image at h
    by_cases hmatch : PngDecoder.item_matches filename = true
    · rw [if_pos hmatch] at h
      exact png_decode_ok_length zuneDecode raw img h
    · rw [if_neg hmatch] at h
      cases h
  · intro h
    exact jpeg_decode_ok_length zuneDecode raw img2 h
  · intro hz h3 h1
    unfold PngDecoder.decode
    rw [hz]
    simp only [h3, h1]
    simp

/-- Witness for C10 at concrete inputs: a 1x1 grayscale raw output is
expanded to 3 bytes by `decode_image` on a `.png` name, and a 2-byte raw
output for a 1x1 image is rejected by the PNG decoder. -/
theorem decode_image_rgb8_length_witness :
    ([9, 9, 9] : Bytes).length = 1 * 1 * 3 ∧
    PngDecoder.decode (fun _ => .ok ([9, 9], 1, 1)) [] =
      .error ("Got invalid number of bytes from PNG decoding") :=
  ⟨(decode_image_rgb8_length (fun _ => .ok ([9], 1, 1)) ("a.png") []
      { rgb8_pixels := [9, 9, 9], width := 1, height := 1 }
      { rgb8_pixels := [9, 9, 9], width := 1, height := 1 } [9] 1 1).1 rfl,
   (decode_image_rgb8_length (fun _ => .ok ([9, 9], 1, 1)) ("a.png") []
      { rgb8_pixels := [9, 9, 9], width := 1, height := 1 }
      { rgb8_pixels := [9, 9, 9], width := 1, height := 1 } [9, 9] 1 1).2.2
      rfl (by decide) (by decide)⟩
